import Mathlib

set_option autoImplicit false
set_option linter.unnecessarySeqFocus false

/-!
Shallow embedding of the memstats library (src/memstats.cc, src/memstats.hh).

The library interposes the global C++ operator new and operator delete,
gates the recording of allocation events on a process-wide atomic flag and
a thread-local flag, appends events to a global event vector whose storage
is obtained through a malloc-backed allocator, and renders aggregate
statistics on demand.  Machine integers are modelled as Nat; operations
that are undefined behaviour in the C++ source (integer division by zero,
out-of-range vector indexing, formatting a zero through a logarithm) are
embedded as Option-valued functions returning none at exactly those points.
-/

namespace Memstats

/-- One entry of the event vector: struct MemStatsInfo (memstats.cc lines
80-91).  The high-resolution time point and the thread id are abstracted as
naturals; a pointer is a natural.  The stacktrace member only exists when
MEMSTAT_HAVE_STACKTRACE is defined and is not modelled. -/
structure MemStatsInfo where
  ptr : Nat
  size : Nat
  time : Nat
  thread : Nat
deriving DecidableEq

/-- The mutable global state of the library: the event vector
memstats_events, the atomic memstats_instrumentation_global, and the
thread-local memstats_instrumentation_thread of every thread (indexed by
thread id). -/
structure St where
  events : List MemStatsInfo
  global : Bool
  threadFlags : Nat → Bool

/-- memstats_do_instrument (lines 422-425):
memstats_instrumentation_thread and memstats_instrumentation_global. -/
def memstats_do_instrument (st : St) (tid : Nat) : Bool :=
  st.threadFlags tid && st.global

/-- MemStatsInfo::record (lines 253-268): builds the info record for the
calling thread and appends it to memstats_events (emplace_back under the
recursive mutex; the mutex is irrelevant in this sequential model).
In the source the size argument defaults to 0; callers here pass it
explicitly. -/
def MemStatsInfo.record (st : St) (tid time ptr sz : Nat) : St :=
  { st with events := st.events ++ [⟨ptr, sz, time, tid⟩] }

/-- Observable actions of the interceptor, used to express ordering between
forwarding to the system allocator (std::malloc / std::free) and recording
an event into the log. -/
inductive Action where
  | sysMalloc (sz : Nat)
  | sysFree (p : Nat)
  | appendEvent (p sz : Nat)
deriving DecidableEq

/-- Outcome of the malloc retry loop in operator new (lines 432-440):
either a pointer, a bad_alloc exception (malloc failed and no new_handler
is installed), or the loop is still spinning after the supplied list of
malloc outcomes is exhausted. -/
inductive LoopResult where
  | ok (p : Nat)
  | badAlloc
  | spin
deriving DecidableEq

/-- The while loop of operator new (lines 433-440), parameterised by the
outcome of each successive std::malloc call and by whether a new_handler is
installed.  Each iteration emits a sysMalloc action. -/
def malloc_loop (sz : Nat) (hasHandler : Bool) : List (Option Nat) → List Action × LoopResult
  | [] => ([], .spin)
  | none :: rest =>
      if hasHandler then
        let r := malloc_loop sz hasHandler rest
        (.sysMalloc sz :: r.1, r.2)
      else ([.sysMalloc sz], .badAlloc)
  | some p :: _ => ([.sysMalloc sz], .ok p)

/-- operator new(std::size_t) (lines 428-444): a zero size is bumped to 1,
the request is forwarded to std::malloc (with retry through the
new_handler), and only on success, if memstats_do_instrument() holds, the
event is recorded.  Returns the new state, the action trace and the
allocation outcome. -/
def operatorNew (st : St) (tid time : Nat) (hasHandler : Bool)
    (attempts : List (Option Nat)) (sz : Nat) : St × List Action × LoopResult :=
  let sz1 := if sz = 0 then 1 else sz
  let r := malloc_loop sz1 hasHandler attempts
  match r.2 with
  | .ok p =>
      if memstats_do_instrument st tid then
        (MemStatsInfo.record st tid time p sz1, r.1 ++ [.appendEvent p sz1], .ok p)
      else (st, r.1, .ok p)
  | res => (st, r.1, res)

/-- operator delete(void *) (lines 460-465): if memstats_do_instrument()
holds the event is recorded (with the defaulted size 0), then the pointer
is handed to std::free. -/
def operatorDelete (st : St) (tid time ptr : Nat) : St × List Action :=
  if memstats_do_instrument st tid then
    (MemStatsInfo.record st tid time ptr 0, [.appendEvent ptr 0, .sysFree ptr])
  else (st, [.sysFree ptr])

/-- memstats_enable_thread_instrumentation (lines 412-415):
std::exchange(memstats_instrumentation_thread, true) for the calling
thread; returns the previous value. -/
def memstats_enable_thread_instrumentation (st : St) (tid : Nat) : St × Bool :=
  ({ st with threadFlags := fun t => if t = tid then true else st.threadFlags t },
   st.threadFlags tid)

/-- memstats_disable_thread_instrumentation (lines 417-420):
std::exchange(memstats_instrumentation_thread, false) for the calling
thread; returns the previous value. -/
def memstats_disable_thread_instrumentation (st : St) (tid : Nat) : St × Bool :=
  ({ st with threadFlags := fun t => if t = tid then false else st.threadFlags t },
   st.threadFlags tid)

/-- A store to memstats_instrumentation_global.  The source performs such
stores in init_memstats_instrumentation_guard (line 156) and in the atexit
hook (line 172); no public API function does. -/
def memstats_set_global (st : St) (b : Bool) : St :=
  { st with global := b }

/-- MallocAllocator<T>::max_size (lines 67-70): size_t(-1) / sizeof(T),
with size_t taken as 64 bits. -/
def MallocAllocator.max_size (sizeofT : Nat) : Nat := (2 ^ 64 - 1) / sizeofT

/-- MallocAllocator<T>::allocate (lines 51-60): throws bad_alloc when the
request exceeds max_size, otherwise calls std::malloc(n * sizeof(T)) and
throws bad_alloc on failure.  This is the dedicated non-instrumented
allocation channel used by the event vector: note the trace contains only
a sysMalloc action, never an appendEvent. -/
def MallocAllocator.allocate (sizeofT n : Nat) (mallocResult : Option Nat) :
    List Action × Except Unit Nat :=
  if n > MallocAllocator.max_size sizeofT then ([], .error ())
  else
    match mallocResult with
    | none => ([.sysMalloc (n * sizeofT)], .error ())
    | some p => ([.sysMalloc (n * sizeofT)], .ok p)

/-- The per-bucket statistics: struct Stats inside memstats_report (lines
301-305).  The unordered_map size_freq is modelled as an association list
in insertion order; all of its keys are positive because only size>0
events are inserted. -/
structure Stats where
  count : Nat
  size : Nat
  max_size : Nat
  size_freq : List (Nat × Nat)
deriving DecidableEq

/-- The value-initialised Stats{}. -/
def Stats.init : Stats := ⟨0, 0, 0, []⟩

/-- ++stats.size_freq[size] on the association list: an absent key is
value-initialised to 0 and then incremented, i.e. inserted with value 1. -/
def incr_freq : List (Nat × Nat) → Nat → List (Nat × Nat)
  | [], s => [(s, 1)]
  | (k, c) :: rest, s =>
      if k = s then (k, c + 1) :: rest else (k, c) :: incr_freq rest s

/-- The register_stats lambda of memstats_report (lines 314-322): count and
size_freq are only touched by size>0 events; size accumulates the event
size; max_size takes the running maximum. -/
def register_stats (stats : Stats) (info : MemStatsInfo) : Stats :=
  { count := if info.size ≠ 0 then stats.count + 1 else stats.count
    size := stats.size + info.size
    max_size := max stats.max_size info.size
    size_freq := if info.size ≠ 0 then incr_freq stats.size_freq info.size
                 else stats.size_freq }

/-- global_stats after the event loop of memstats_report (lines 306,
312-332): register_stats folded over all drained events. -/
def global_stats (events : List MemStatsInfo) : Stats :=
  events.foldl register_stats Stats.init

/-- register_stats(thread_stats[info.thread]): operator[] on the
unordered_map default-constructs an absent entry, then register_stats is
applied to it.  Note a size-0 event still creates its thread entry. -/
def upsert_thread : List (Nat × Stats) → Nat → MemStatsInfo → List (Nat × Stats)
  | [], tid, info => [(tid, register_stats Stats.init info)]
  | (k, s) :: rest, tid, info =>
      if k = tid then (k, register_stats s info) :: rest
      else (k, s) :: upsert_thread rest tid info

/-- thread_stats after the event loop of memstats_report (lines 307,
312-332). -/
def thread_stats (events : List MemStatsInfo) : List (Nat × Stats) :=
  events.foldl (fun m e => upsert_thread m e.thread e) []

/-- The bin computation of format_histogram (line 366):
(bins * (size - 1)) / stats.max_size.  All call sites have size ≥ 1, so
truncated Nat subtraction agrees with the size_t arithmetic. -/
def hist_bin (bins size max_size : Nat) : Nat :=
  (bins * (size - 1)) / max_size

/-- The histogram filling loop of format_histogram (lines 360-368),
carrying (hist, local running maximum bin count).  none marks the
undefined behaviours of the source: a failing assert(size <= max_size),
division by a zero max_size, or an out-of-range hist[bin]. -/
def hist_fill (bins max_size : Nat) :
    List (Nat × Nat) → List Nat × Nat → Option (List Nat × Nat)
  | [], acc => some acc
  | (size, count) :: rest, (hist, local_max) =>
      if size ≤ max_size then
        if max_size = 0 then none
        else
          let bin := hist_bin bins size max_size
          if h : bin < hist.length then
            let v := hist.get ⟨bin, h⟩ + count
            hist_fill bins max_size rest (hist.set bin v, max v local_max)
          else none
      else none

/-- The glyph selection of format_histogram (lines 371-376): bin_entry =
(count * palette size) / local max, clamped to the last glyph; division by
a zero local max is undefined behaviour, hence none. -/
def glyph_of (paletteSize local_max count : Nat) : Option Nat :=
  if local_max = 0 then none
  else some (min ((count * paletteSize) / local_max) (paletteSize - 1))

/-- bytes_to_string (lines 337-345): base = floor(log2(bytes) / 10), throw
when base exceeds the 11 metric prefixes, else the pair (bytes / 1024^base,
base).  log2 of 0 is undefined, hence none. -/
def bytes_to_string (bytes : Nat) : Option (Nat × Nat) :=
  if bytes = 0 then none
  else
    let base := Nat.log2 bytes / 10
    if base > 11 then none
    else some (bytes / 1024 ^ base, base)

/-- int_to_string (lines 347-355): base = floor(log10(val) / 3); log10 of
0 is undefined, hence none. -/
def int_to_string (val : Nat) : Option (Nat × Nat) :=
  if val = 0 then none
  else
    let base := Nat.log 10 val / 3
    if base > 11 then none
    else some (val / 1000 ^ base, base)

/-- The label at the end of a report line: "Total" or "Thread <id>". -/
inductive Label where
  | total
  | thread (tid : Nat)
deriving DecidableEq

/-- One rendered report line: the glyph indices of the histogram strip, the
(mantissa, magnitude) pairs for the maximum, accumulated size and count,
and the bucket label. -/
structure Line where
  glyphs : List Nat
  max_repr : Nat × Nat
  accum_repr : Nat × Nat
  count_repr : Nat × Nat
  label : Label
deriving DecidableEq

/-- format_histogram (lines 358-379): fill the bins, render one glyph per
bin against the largest bin count, then append the bucket maximum with its
byte suffix. -/
def format_histogram (bins paletteSize : Nat) (stats : Stats) :
    Option (List Nat × (Nat × Nat)) := do
  let hl ← hist_fill bins stats.max_size stats.size_freq (List.replicate bins 0, 0)
  let glyphs ← hl.1.mapM (glyph_of paletteSize hl.2)
  let maxr ← bytes_to_string stats.max_size
  return (glyphs, maxr)

/-- One output line of memstats_report (lines 381-392): the histogram of
the bucket, the accumulated bytes, the count, and the label. -/
def format_bucket (bins paletteSize : Nat) (stats : Stats) (label : Label) :
    Option Line := do
  let fh ← format_histogram bins paletteSize stats
  let accumr ← bytes_to_string stats.size
  let countr ← int_to_string stats.count
  return ⟨fh.1, fh.2, accumr, countr, label⟩

/-- The bucket output of memstats_report (lines 381-392): the global bucket
is always rendered; a thread bucket is rendered only when its accumulated
size is nonzero. -/
def bucket_lines (bins paletteSize : Nat) (g : Stats) (ts : List (Nat × Stats)) :
    Option (List Line) := do
  let gl ← format_bucket bins paletteSize g .total
  let tls ← (ts.filter (fun p => p.2.size ≠ 0)).mapM
      (fun p => format_bucket bins paletteSize p.2 (.thread p.1))
  return gl :: tls

/-- What a memstats_report call produced: nothing (empty log), a rendered
report, or undefined behaviour reached during rendering. -/
inductive ReportResult where
  | silent
  | printed (lines : List Line)
  | undef
deriving DecidableEq

/-- memstats_report (lines 295-410): return immediately when the event
vector is empty; otherwise aggregate the events into the global and
per-thread buckets, clear the vector (line 334, before any rendering), and
render the bucket lines.  bins comes from memstats_bins() and paletteSize
from memstats_str_hist_representation(). -/
def memstats_report (bins paletteSize : Nat) (st : St) : St × ReportResult :=
  if st.events.length = 0 then (st, .silent)
  else
    let g := global_stats st.events
    let ts := thread_stats st.events
    let cleared : St := { st with events := [] }
    match bucket_lines bins paletteSize g ts with
    | some lines => (cleared, .printed lines)
    | none => (cleared, .undef)

/-- The public API of the library, exactly the functions declared in
src/memstats.hh: memstats_report, memstats_enable_thread_instrumentation,
memstats_disable_thread_instrumentation. -/
inductive PublicOp where
  | report
  | enableThreadInstrumentation
  | disableThreadInstrumentation
deriving DecidableEq

/-- Effect of one public API call made by thread tid on the library state. -/
def applyPublicOp (bins paletteSize tid : Nat) (st : St) : PublicOp → St
  | .report => (memstats_report bins paletteSize st).1
  | .enableThreadInstrumentation => (memstats_enable_thread_instrumentation st tid).1
  | .disableThreadInstrumentation => (memstats_disable_thread_instrumentation st tid).1

/-- Forwarding actions are the calls into the system allocator. -/
def is_forward : Action → Bool
  | .sysMalloc _ => true
  | .sysFree _ => true
  | .appendEvent _ _ => false

/-- Spec-side predicate, following the wording of spec section 4.1: the
interceptor "always forwards the request to the underlying system
allocator first", before any recording.  Since every action is either a
forwarding action or an event append, a trace satisfies this exactly when
it is empty or starts with a forwarding action (any later append is then
preceded by that forward). -/
def forwards_first : List Action → Bool
  | [] => true
  | a :: _ => is_forward a

/-! ### Shared concrete states and event lists used by witnesses -/

/-- A state with instrumentation fully on and an empty log. -/
def stBoth : St := ⟨[], true, fun _ => true⟩

/-- A state with instrumentation fully off and an empty log. -/
def stOff : St := ⟨[], false, fun _ => false⟩

/-- A small event list: three allocations and one deallocation. -/
def demoEvents : List MemStatsInfo :=
  [⟨100, 4, 0, 0⟩, ⟨101, 0, 1, 0⟩, ⟨102, 7, 2, 1⟩, ⟨103, 4, 3, 0⟩]

/-- Scenario C of the spec: four distinct sizes 1, 5, 9, 12, each allocated
three times, all on one thread. -/
def scenarioC_events : List MemStatsInfo :=
  [⟨0, 1, 0, 0⟩, ⟨1, 5, 0, 0⟩, ⟨2, 9, 0, 0⟩, ⟨3, 12, 0, 0⟩,
   ⟨4, 1, 0, 0⟩, ⟨5, 5, 0, 0⟩, ⟨6, 9, 0, 0⟩, ⟨7, 12, 0, 0⟩,
   ⟨8, 1, 0, 0⟩, ⟨9, 5, 0, 0⟩, ⟨10, 9, 0, 0⟩, ⟨11, 12, 0, 0⟩]

/-- A state whose log holds exactly one deallocation event (size 0):
reachable by enabling instrumentation and deleting a pointer that was
allocated before instrumentation was enabled. -/
def deallocOnlySt : St := ⟨[⟨7, 0, 0, 0⟩], true, fun _ => true⟩

/-- Well-formedness of a bucket as built by register_stats: every frequency
key is a positive size bounded by the bucket maximum, and the frequencies
total the bucket count. -/
def Stats.WF (s : Stats) : Prop :=
  (∀ p ∈ s.size_freq, 1 ≤ p.1 ∧ p.1 ≤ s.max_size)
  ∧ (s.size_freq.map Prod.snd).sum = s.count

/-! ### Aggregation lemmas -/

theorem foldl_register_count (l : List MemStatsInfo) :
    ∀ s : Stats, (l.foldl register_stats s).count
      = s.count + (l.filter fun i => i.size ≠ 0).length := by
  induction l with
  | nil => intro s; simp
  | cons e t ih =>
      intro s
      by_cases h : e.size = 0 <;>
        simp [List.filter_cons, h, ih, register_stats] <;> omega

theorem foldl_register_size (l : List MemStatsInfo) :
    ∀ s : Stats, (l.foldl register_stats s).size
      = s.size + (l.map MemStatsInfo.size).sum := by
  induction l with
  | nil => intro s; simp
  | cons e t ih =>
      intro s
      simp [register_stats, ih]
      omega

theorem register_stats_zero (s : Stats) (e : MemStatsInfo) (h : e.size = 0) :
    register_stats s e = s := by
  cases s
  simp [register_stats, h]

theorem sum_map_filter_size (l : List MemStatsInfo) :
    ((l.filter fun i => i.size ≠ 0).map MemStatsInfo.size).sum
      = (l.map MemStatsInfo.size).sum := by
  induction l with
  | nil => rfl
  | cons e t ih =>
      by_cases h : e.size = 0 <;> simp [List.filter_cons, h] <;> simpa using ih

/-- Claim C2: for every recorded event list, the global bucket counts
exactly the size>0 events and sums exactly their sizes, and a deallocation
event (size 0) leaves every field of any bucket unchanged. -/
theorem claimC2 (l : List MemStatsInfo) (s : Stats) (e : MemStatsInfo)
    (h : e.size = 0) :
    (global_stats l).count = (l.filter fun i => i.size ≠ 0).length
    ∧ (global_stats l).size
        = ((l.filter fun i => i.size ≠ 0).map MemStatsInfo.size).sum
    ∧ register_stats s e = s := by
  refine ⟨?_, ?_, register_stats_zero s e h⟩
  · simpa [global_stats, Stats.init] using foldl_register_count l Stats.init
  · show (l.foldl register_stats Stats.init).size = _
    rw [foldl_register_size l Stats.init, sum_map_filter_size]
    simp [Stats.init]

theorem claimC2_witness :
    (global_stats demoEvents).count = (demoEvents.filter fun i => i.size ≠ 0).length
    ∧ (global_stats demoEvents).size
        = ((demoEvents.filter fun i => i.size ≠ 0).map MemStatsInfo.size).sum
    ∧ register_stats Stats.init ⟨101, 0, 1, 0⟩ = Stats.init :=
  claimC2 demoEvents Stats.init ⟨101, 0, 1, 0⟩ rfl

/-! ### Report drain lemmas -/

theorem memstats_report_empty (bins ps : Nat) (st : St) (h : st.events = []) :
    memstats_report bins ps st = (st, .silent) := by
  simp [memstats_report, h]

theorem memstats_report_clears (bins ps : Nat) (st : St) :
    (memstats_report bins ps st).1.events = [] := by
  by_cases h : st.events.length = 0
  · simp [memstats_report, h, List.length_eq_zero.mp h]
  · simp only [memstats_report, if_neg h]
    cases hb : bucket_lines bins ps (global_stats st.events) (thread_stats st.events) <;>
      simp [hb]

/-- Claim C5: memstats_report on an empty event log is a no-op producing no
output and changing no state; after any memstats_report call the event log
is empty, so an immediately following memstats_report is a no-op. -/
theorem claimC5 (bins ps : Nat) (st st2 : St) (hemp : st.events = []) :
    memstats_report bins ps st = (st, .silent)
    ∧ (memstats_report bins ps st2).1.events = []
    ∧ memstats_report bins ps (memstats_report bins ps st2).1
        = ((memstats_report bins ps st2).1, ReportResult.silent) :=
  ⟨memstats_report_empty bins ps st hemp,
   memstats_report_clears bins ps st2,
   memstats_report_empty bins ps _ (memstats_report_clears bins ps st2)⟩

theorem claimC5_witness :
    memstats_report 15 9 stBoth = (stBoth, .silent)
    ∧ (memstats_report 15 9 ⟨demoEvents, true, fun _ => true⟩).1.events = []
    ∧ memstats_report 15 9 (memstats_report 15 9 ⟨demoEvents, true, fun _ => true⟩).1
        = ((memstats_report 15 9 ⟨demoEvents, true, fun _ => true⟩).1,
           ReportResult.silent) :=
  claimC5 15 9 stBoth ⟨demoEvents, true, fun _ => true⟩ rfl

/-! ### Gating lemmas -/

theorem events_append_ne (l : List MemStatsInfo) (e : MemStatsInfo) :
    l ++ [e] ≠ l := by
  intro hEq
  have := congrArg List.length hEq
  simp at this

theorem operatorNew_result_ok (st : St) (tid time : Nat) (hh : Bool)
    (a : List (Option Nat)) (sz p : Nat)
    (hok : (operatorNew st tid time hh a sz).2.2 = .ok p) :
    (malloc_loop (if sz = 0 then 1 else sz) hh a).2 = .ok p := by
  by_cases g : memstats_do_instrument st tid = true <;>
    cases hr2 : (malloc_loop (if sz = 0 then 1 else sz) hh a).2 <;>
      simp [operatorNew, hr2, g] at hok <;> simp [hok]

/-- Claim C1: an allocation or deallocation event is appended to the event
log if and only if both the global flag and the calling thread flag are
true at the time of the call, and flipping either flag changes no already
recorded event and no other thread gating. -/
theorem claimC1 (st : St) (tid time : Nat) (hh : Bool) (a : List (Option Nat))
    (sz p ptr t : Nat)
    (hok : (operatorNew st tid time hh a sz).2.2 = .ok p) (ht : t ≠ tid) :
    ((operatorNew st tid time hh a sz).1.events ≠ st.events
        ↔ st.global = true ∧ st.threadFlags tid = true)
    ∧ ((operatorDelete st tid time ptr).1.events ≠ st.events
        ↔ st.global = true ∧ st.threadFlags tid = true)
    ∧ (memstats_enable_thread_instrumentation st tid).1.events = st.events
    ∧ (memstats_disable_thread_instrumentation st tid).1.events = st.events
    ∧ (memstats_set_global st true).events = st.events
    ∧ (memstats_set_global st false).events = st.events
    ∧ (memstats_enable_thread_instrumentation st tid).1.threadFlags t
        = st.threadFlags t
    ∧ (memstats_disable_thread_instrumentation st tid).1.threadFlags t
        = st.threadFlags t
    ∧ (memstats_enable_thread_instrumentation st tid).1.global = st.global
    ∧ (memstats_disable_thread_instrumentation st tid).1.global = st.global
    ∧ (memstats_set_global st true).threadFlags t = st.threadFlags t
    ∧ (memstats_set_global st false).threadFlags t = st.threadFlags t := by
  have hr := operatorNew_result_ok st tid time hh a sz p hok
  refine ⟨?_, ?_, rfl, rfl, rfl, rfl, ?_, ?_, rfl, rfl, rfl, rfl⟩
  · cases hflag : st.threadFlags tid <;> cases hglob : st.global <;>
      simp [operatorNew, hr, memstats_do_instrument, hflag, hglob,
        MemStatsInfo.record, events_append_ne]
  · cases hflag : st.threadFlags tid <;> cases hglob : st.global <;>
      simp [operatorDelete, memstats_do_instrument, hflag, hglob,
        MemStatsInfo.record, events_append_ne]
  · simp [memstats_enable_thread_instrumentation, ht]
  · simp [memstats_disable_thread_instrumentation, ht]

theorem claimC1_witness :
    ((operatorNew stBoth 0 0 true [some 5] 3).1.events ≠ stBoth.events
        ↔ stBoth.global = true ∧ stBoth.threadFlags 0 = true)
    ∧ ((operatorDelete stBoth 0 0 5).1.events ≠ stBoth.events
        ↔ stBoth.global = true ∧ stBoth.threadFlags 0 = true)
    ∧ (memstats_enable_thread_instrumentation stBoth 0).1.events = stBoth.events
    ∧ (memstats_disable_thread_instrumentation stBoth 0).1.events = stBoth.events
    ∧ (memstats_set_global stBoth true).events = stBoth.events
    ∧ (memstats_set_global stBoth false).events = stBoth.events
    ∧ (memstats_enable_thread_instrumentation stBoth 0).1.threadFlags 1
        = stBoth.threadFlags 1
    ∧ (memstats_disable_thread_instrumentation stBoth 0).1.threadFlags 1
        = stBoth.threadFlags 1
    ∧ (memstats_enable_thread_instrumentation stBoth 0).1.global = stBoth.global
    ∧ (memstats_disable_thread_instrumentation stBoth 0).1.global = stBoth.global
    ∧ (memstats_set_global stBoth true).threadFlags 1 = stBoth.threadFlags 1
    ∧ (memstats_set_global stBoth false).threadFlags 1 = stBoth.threadFlags 1 :=
  claimC1 stBoth 0 0 true [some 5] 3 5 5 1 (by decide) (by decide)

/-! ### Public API lemmas -/

/-- Claim C9, counterexample: the public API of src/memstats.hh consists of
memstats_report and the two per-thread toggles only; none of its
operations changes the process-wide flag, so no public process-wide
enable_instrumentation or disable_instrumentation operation exists. -/
theorem claimC9_counterexample :
    (applyPublicOp 15 9 0 stOff .report).global = false
    ∧ (applyPublicOp 15 9 0 stOff .enableThreadInstrumentation).global = false
    ∧ (applyPublicOp 15 9 0 stOff .disableThreadInstrumentation).global = false :=
  ⟨rfl, rfl, rfl⟩

/-- Claim C9, amended: the two per-thread operations
memstats_enable_thread_instrumentation and
memstats_disable_thread_instrumentation each return the thread flag value
that held immediately before the call and set the flag to true resp.
false; no public API operation modifies the process-wide flag, which is
set only from configuration at startup and forced false at exit. -/
theorem claimC9_amended (st : St) (tid bins ps : Nat) (op : PublicOp) :
    (memstats_enable_thread_instrumentation st tid).2 = st.threadFlags tid
    ∧ (memstats_enable_thread_instrumentation st tid).1.threadFlags tid = true
    ∧ (memstats_disable_thread_instrumentation st tid).2 = st.threadFlags tid
    ∧ (memstats_disable_thread_instrumentation st tid).1.threadFlags tid = false
    ∧ (applyPublicOp bins ps tid st op).global = st.global := by
  refine ⟨rfl, by simp [memstats_enable_thread_instrumentation], rfl,
    by simp [memstats_disable_thread_instrumentation], ?_⟩
  cases op with
  | report =>
      show (memstats_report bins ps st).1.global = st.global
      by_cases h : st.events.length = 0
      · simp [memstats_report, h]
      · simp only [memstats_report, if_neg h]
        cases hb : bucket_lines bins ps (global_stats st.events)
            (thread_stats st.events) <;> simp [hb]
  | enableThreadInstrumentation => rfl
  | disableThreadInstrumentation => rfl

/-! ### Zero-size request lemmas -/

/-- Claim C10: a zero-size allocation request is handled exactly like a
request of size 1, every event appended by operator new has size at least
1, and every event appended by operator delete has size 0. -/
theorem claimC10 (st : St) (tid time : Nat) (hh : Bool)
    (a : List (Option Nat)) (sz ptr : Nat) (e e2 : MemStatsInfo)
    (he : e ∈ (operatorNew st tid time hh a sz).1.events)
    (he2 : e2 ∈ (operatorDelete st tid time ptr).1.events) :
    operatorNew st tid time hh a 0 = operatorNew st tid time hh a 1
    ∧ (e ∈ st.events ∨ 1 ≤ e.size)
    ∧ (e2 ∈ st.events ∨ e2.size = 0) := by
  refine ⟨rfl, ?_, ?_⟩
  · revert he
    cases hr : (malloc_loop (if sz = 0 then 1 else sz) hh a).2 with
    | ok p =>
        by_cases g : memstats_do_instrument st tid = true
        · simp [operatorNew, hr, g, MemStatsInfo.record]
          intro hmem
          rcases hmem with hmem | hmem
          · exact Or.inl hmem
          · subst hmem
            by_cases hz : sz = 0 <;> simp [hz]
            omega
        · simp [operatorNew, hr, g]
          exact Or.inl
    | badAlloc => simp [operatorNew, hr]; exact Or.inl
    | spin => simp [operatorNew, hr]; exact Or.inl
  · revert he2
    by_cases g : memstats_do_instrument st tid = true
    · simp [operatorDelete, g, MemStatsInfo.record]
      intro hmem
      rcases hmem with hmem | hmem
      · exact Or.inl hmem
      · simp [hmem]
    · simp [operatorDelete, g]
      exact Or.inl

theorem claimC10_witness :
    operatorNew stBoth 0 0 true [some 5] 0 = operatorNew stBoth 0 0 true [some 5] 1
    ∧ ((⟨5, 1, 0, 0⟩ : MemStatsInfo) ∈ stBoth.events
        ∨ 1 ≤ (⟨5, 1, 0, 0⟩ : MemStatsInfo).size)
    ∧ ((⟨5, 0, 0, 0⟩ : MemStatsInfo) ∈ stBoth.events
        ∨ (⟨5, 0, 0, 0⟩ : MemStatsInfo).size = 0) :=
  claimC10 stBoth 0 0 true [some 5] 0 5 ⟨5, 1, 0, 0⟩ ⟨5, 0, 0, 0⟩
    (by simp [operatorNew, malloc_loop, memstats_do_instrument, stBoth,
      MemStatsInfo.record])
    (by simp [operatorDelete, memstats_do_instrument, stBoth, MemStatsInfo.record])

/-! ### Interceptor trace lemmas -/

theorem malloc_loop_trace_forward (sz : Nat) (hh : Bool) (a : List (Option Nat)) :
    ∀ act ∈ (malloc_loop sz hh a).1, act = .sysMalloc sz := by
  induction a with
  | nil => simp [malloc_loop]
  | cons o rest ih =>
      cases o with
      | none =>
          by_cases h : hh = true
          · subst h
            simp only [malloc_loop, if_true]
            intro act hact
            rcases List.mem_cons.mp hact with h1 | h1
            · exact h1
            · exact ih act h1
          · simp [malloc_loop, h]
      | some p => simp [malloc_loop]

theorem malloc_loop_ok_trace_ne_nil (sz : Nat) (hh : Bool) (a : List (Option Nat))
    (p : Nat) (h : (malloc_loop sz hh a).2 = .ok p) :
    (malloc_loop sz hh a).1 ≠ [] := by
  cases a with
  | nil => simp [malloc_loop] at h
  | cons o rest =>
      cases o with
      | none => by_cases hhh : hh = true <;> simp [malloc_loop, hhh]
      | some q => simp [malloc_loop]

theorem malloc_loop_badAlloc_mem (sz : Nat) (hh : Bool) (a : List (Option Nat))
    (h : (malloc_loop sz hh a).2 = .badAlloc) : none ∈ a := by
  induction a with
  | nil => simp [malloc_loop] at h
  | cons o rest ih =>
      cases o with
      | none => simp
      | some q => simp [malloc_loop] at h

theorem operatorNew_forwards_first (st : St) (tid time : Nat) (hh : Bool)
    (a : List (Option Nat)) (sz : Nat) :
    forwards_first (operatorNew st tid time hh a sz).2.1 = true := by
  cases hr : (malloc_loop (if sz = 0 then 1 else sz) hh a).2 with
  | ok p =>
      have hne := malloc_loop_ok_trace_ne_nil _ hh a p hr
      obtain ⟨act, rest, hsplit⟩ := List.exists_cons_of_ne_nil hne
      have hact : act = .sysMalloc (if sz = 0 then 1 else sz) :=
        malloc_loop_trace_forward _ hh a act
          (hsplit ▸ List.mem_cons_self act rest)
      by_cases g : memstats_do_instrument st tid = true <;>
        simp [operatorNew, hr, g, hsplit, hact, forwards_first, is_forward]
  | badAlloc =>
      have hall := malloc_loop_trace_forward (if sz = 0 then 1 else sz) hh a
      simp only [operatorNew, hr]
      cases hsp : (malloc_loop (if sz = 0 then 1 else sz) hh a).1 with
      | nil => rfl
      | cons act rest =>
          have hact := hall act (hsp ▸ List.mem_cons_self act rest)
          simp [forwards_first, hact, is_forward]
  | spin =>
      have hall := malloc_loop_trace_forward (if sz = 0 then 1 else sz) hh a
      simp only [operatorNew, hr]
      cases hsp : (malloc_loop (if sz = 0 then 1 else sz) hh a).1 with
      | nil => rfl
      | cons act rest =>
          have hact := hall act (hsp ▸ List.mem_cons_self act rest)
          simp [forwards_first, hact, is_forward]

theorem operatorNew_result (st : St) (tid time : Nat) (hh : Bool)
    (a : List (Option Nat)) (sz : Nat) :
    (operatorNew st tid time hh a sz).2.2
      = (malloc_loop (if sz = 0 then 1 else sz) hh a).2 := by
  cases hr : (malloc_loop (if sz = 0 then 1 else sz) hh a).2 with
  | ok p =>
      by_cases g : memstats_do_instrument st tid = true <;>
        simp [operatorNew, hr, g]
  | badAlloc => simp [operatorNew, hr]
  | spin => simp [operatorNew, hr]

theorem operatorNew_forward_actions (st : St) (tid time : Nat) (hh : Bool)
    (a : List (Option Nat)) (sz : Nat) :
    (operatorNew st tid time hh a sz).2.1.filter is_forward
      = (malloc_loop (if sz = 0 then 1 else sz) hh a).1 := by
  have hfilter : (malloc_loop (if sz = 0 then 1 else sz) hh a).1.filter is_forward
      = (malloc_loop (if sz = 0 then 1 else sz) hh a).1 :=
    List.filter_eq_self.mpr (fun act hact => by
      simp [malloc_loop_trace_forward _ hh a act hact, is_forward])
  cases hr : (malloc_loop (if sz = 0 then 1 else sz) hh a).2 with
  | ok p =>
      by_cases g : memstats_do_instrument st tid = true <;>
        simp [operatorNew, hr, g, List.filter_append, hfilter, is_forward]
  | badAlloc => simp [operatorNew, hr, hfilter]
  | spin => simp [operatorNew, hr, hfilter]

theorem operatorDelete_trace_getLast (st : St) (tid time ptr : Nat) :
    (operatorDelete st tid time ptr).2.getLast? = some (.sysFree ptr) := by
  by_cases g : memstats_do_instrument st tid = true <;>
    simp [operatorDelete, g]

/-- Claim C7, counterexample: with instrumentation enabled, operator delete
records the deallocation event before forwarding the pointer to the system
allocator (std::free), so a deallocation request is not forwarded first. -/
theorem claimC7_counterexample :
    (operatorDelete stBoth 0 0 7).2
        = [Action.appendEvent 7 0, Action.sysFree 7]
    ∧ forwards_first (operatorDelete stBoth 0 0 7).2 = false :=
  ⟨rfl, rfl⟩

/-- Claim C7, amended: operator new always forwards to the system allocator
before recording; its outcome and its forwarded requests are exactly those
of the malloc retry loop, independent of the instrumentation state; a
bad_alloc outcome occurs only when the underlying allocator itself
returned failure.  Operator delete always forwards the free (as its final
action), but when instrumentation is on it records the deallocation event
before, not after, forwarding. -/
theorem claimC7_amended (st stB : St) (tid tidB time timeB : Nat)
    (hh hhB : Bool) (a aB : List (Option Nat)) (sz szB ptr : Nat)
    (hba : (operatorNew stB tidB timeB hhB aB szB).2.2 = .badAlloc) :
    forwards_first (operatorNew st tid time hh a sz).2.1 = true
    ∧ (operatorNew st tid time hh a sz).2.2
        = (malloc_loop (if sz = 0 then 1 else sz) hh a).2
    ∧ (operatorNew st tid time hh a sz).2.1.filter is_forward
        = (malloc_loop (if sz = 0 then 1 else sz) hh a).1
    ∧ (operatorDelete st tid time ptr).2.getLast? = some (.sysFree ptr)
    ∧ none ∈ aB := by
  refine ⟨operatorNew_forwards_first st tid time hh a sz,
    operatorNew_result st tid time hh a sz,
    operatorNew_forward_actions st tid time hh a sz,
    operatorDelete_trace_getLast st tid time ptr, ?_⟩
  have hres := operatorNew_result stB tidB timeB hhB aB szB
  exact malloc_loop_badAlloc_mem _ hhB aB (hres.symm.trans hba)

theorem claimC7_amended_witness :
    forwards_first (operatorNew stBoth 0 0 true [some 5] 3).2.1 = true
    ∧ (operatorNew stBoth 0 0 true [some 5] 3).2.2
        = (malloc_loop (if 3 = 0 then 1 else 3) true [some 5]).2
    ∧ (operatorNew stBoth 0 0 true [some 5] 3).2.1.filter is_forward
        = (malloc_loop (if 3 = 0 then 1 else 3) true [some 5]).1
    ∧ (operatorDelete stBoth 0 0 7).2.getLast? = some (.sysFree 7)
    ∧ none ∈ ([none] : List (Option Nat)) :=
  claimC7_amended stBoth stOff 0 0 0 0 true false [some 5] [none] 3 1 7 rfl

/-! ### Bookkeeping channel lemmas -/

/-- Claim C8: the bookkeeping allocation channel MallocAllocator::allocate
used by the event vector performs no event append; MemStatsInfo::record
appends exactly the one given event; and an instrumented allocation grows
the event log by at most one event, exactly one when the allocation
succeeds with the gate open — recording an event never produces another
recordable event. -/
theorem claimC8 (sot n : Nat) (r : Option Nat) (p sz : Nat) (st st2 : St)
    (tid tid2 time time2 ptr q : Nat) (hh hh2 : Bool)
    (a a2 : List (Option Nat)) (szN sz2 : Nat)
    (hok : (operatorNew st tid time hh a szN).2.2 = .ok q)
    (hg : memstats_do_instrument st tid = true) :
    Action.appendEvent p sz ∉ (MallocAllocator.allocate sot n r).1
    ∧ (MemStatsInfo.record st tid time ptr sz).events
        = st.events ++ [⟨ptr, sz, time, tid⟩]
    ∧ (operatorNew st2 tid2 time2 hh2 a2 sz2).1.events.length
        ≤ st2.events.length + 1
    ∧ (operatorNew st tid time hh a szN).1.events.length
        = st.events.length + 1 := by
  refine ⟨?_, rfl, ?_, ?_⟩
  · by_cases hmax : n > MallocAllocator.max_size sot
    · simp [MallocAllocator.allocate, hmax]
    · cases r <;> simp [MallocAllocator.allocate, hmax]
  · cases hr2 : (malloc_loop (if sz2 = 0 then 1 else sz2) hh2 a2).2 with
    | ok pp =>
        by_cases g2 : memstats_do_instrument st2 tid2 = true <;>
          simp [operatorNew, hr2, g2, MemStatsInfo.record]
    | badAlloc => simp [operatorNew, hr2]
    | spin => simp [operatorNew, hr2]
  · have hr := operatorNew_result_ok st tid time hh a szN q hok
    simp [operatorNew, hr, hg, MemStatsInfo.record]

theorem claimC8_witness :
    Action.appendEvent 9 4 ∉ (MallocAllocator.allocate 8 2 (some 64)).1
    ∧ (MemStatsInfo.record stBoth 0 0 9 4).events
        = stBoth.events ++ [⟨9, 4, 0, 0⟩]
    ∧ (operatorNew stOff 1 1 true [some 6] 2).1.events.length
        ≤ stOff.events.length + 1
    ∧ (operatorNew stBoth 0 0 true [some 5] 3).1.events.length
        = stBoth.events.length + 1 :=
  claimC8 8 2 (some 64) 9 4 stBoth stOff 0 1 0 1 9 5 true true
    [some 5] [some 6] 3 2 rfl rfl

/-! ### Histogram lemmas -/

theorem incr_freq_sum (l : List (Nat × Nat)) (s : Nat) :
    ((incr_freq l s).map Prod.snd).sum = (l.map Prod.snd).sum + 1 := by
  induction l with
  | nil => simp [incr_freq]
  | cons kc rest ih =>
      obtain ⟨k, c⟩ := kc
      by_cases h : k = s <;> simp [incr_freq, h, ih] <;> omega

theorem incr_freq_keys (l : List (Nat × Nat)) (s : Nat) :
    ∀ p ∈ incr_freq l s, p.1 = s ∨ p ∈ l := by
  induction l with
  | nil => simp [incr_freq]
  | cons kc rest ih =>
      obtain ⟨k, c⟩ := kc
      intro p hp
      by_cases h : k = s
      · simp only [incr_freq, if_pos h] at hp
        rcases List.mem_cons.mp hp with h1 | h1
        · subst h1; exact Or.inl h
        · exact Or.inr (List.mem_cons_of_mem _ h1)
      · simp only [incr_freq, if_neg h] at hp
        rcases List.mem_cons.mp hp with h1 | h1
        · subst h1; exact Or.inr (List.mem_cons_self _ _)
        · rcases ih p h1 with h2 | h2
          · exact Or.inl h2
          · exact Or.inr (List.mem_cons_of_mem _ h2)

theorem register_stats_WF (s : Stats) (e : MemStatsInfo) (h : s.WF) :
    (register_stats s e).WF := by
  by_cases hz : e.size = 0
  · rw [register_stats_zero s e hz]; exact h
  · obtain ⟨hkeys, hsum⟩ := h
    refine ⟨?_, ?_⟩
    · intro p hp
      simp only [register_stats, ne_eq, hz, not_false_eq_true, if_true] at hp ⊢
      rcases incr_freq_keys s.size_freq e.size p hp with h1 | h1
      · refine ⟨by omega, ?_⟩
        rw [h1]
        exact le_max_right _ _
      · rcases hkeys p h1 with ⟨h2, h3⟩
        exact ⟨h2, le_trans h3 (le_max_left _ _)⟩
    · simp only [register_stats, ne_eq, hz, not_false_eq_true, if_true]
      rw [incr_freq_sum, hsum]

theorem foldl_register_WF (l : List MemStatsInfo) :
    ∀ s : Stats, s.WF → (l.foldl register_stats s).WF := by
  induction l with
  | nil => intro s h; exact h
  | cons e t ih => intro s h; exact ih _ (register_stats_WF s e h)

theorem global_stats_WF (l : List MemStatsInfo) : (global_stats l).WF :=
  foldl_register_WF l Stats.init ⟨by simp [Stats.init], by simp [Stats.init]⟩

theorem upsert_thread_WF (m : List (Nat × Stats)) (tid : Nat) (e : MemStatsInfo)
    (h : ∀ q ∈ m, (q.2).WF) : ∀ q ∈ upsert_thread m tid e, (q.2).WF := by
  induction m with
  | nil =>
      intro q hq
      simp only [upsert_thread, List.mem_singleton] at hq
      subst hq
      exact register_stats_WF _ e ⟨by simp [Stats.init], by simp [Stats.init]⟩
  | cons ks rest ih =>
      obtain ⟨k, s⟩ := ks
      intro q hq
      by_cases hk : k = tid
      · simp only [upsert_thread, if_pos hk] at hq
        rcases List.mem_cons.mp hq with h1 | h1
        · subst h1
          exact register_stats_WF s e (h (k, s) (List.mem_cons_self _ _))
        · exact h q (List.mem_cons_of_mem _ h1)
      · simp only [upsert_thread, if_neg hk] at hq
        rcases List.mem_cons.mp hq with h1 | h1
        · subst h1; exact h (k, s) (List.mem_cons_self _ _)
        · exact ih (fun q2 hq2 => h q2 (List.mem_cons_of_mem _ hq2)) q h1

theorem thread_stats_WF (l : List MemStatsInfo) :
    ∀ q ∈ thread_stats l, (q.2).WF := by
  have main : ∀ (l2 : List MemStatsInfo) (m : List (Nat × Stats)),
      (∀ q ∈ m, (q.2).WF) →
      ∀ q ∈ l2.foldl (fun m e => upsert_thread m e.thread e) m, (q.2).WF := by
    intro l2
    induction l2 with
    | nil => intro m hm; exact hm
    | cons e t ih =>
        intro m hm
        exact ih _ (upsert_thread_WF m e.thread e hm)
  exact main l [] (by simp)

theorem hist_bin_lt (bins s M : Nat) (hb : 1 ≤ bins) (hs : 1 ≤ s)
    (hsM : s ≤ M) : hist_bin bins s M < bins := by
  have hM : 0 < M := by omega
  have h2 : s - 1 < M := by omega
  have h1 : bins * (s - 1) < bins * M := mul_lt_mul_of_pos_left h2 (by omega)
  exact (Nat.div_lt_iff_lt_mul hM).mpr h1

theorem sum_set_add (l : List Nat) : ∀ (i c : Nat) (h : i < l.length),
    (l.set i (l.get ⟨i, h⟩ + c)).sum = l.sum + c := by
  induction l with
  | nil => intro i c h; simp at h
  | cons a t ih =>
      intro i c h
      cases i with
      | zero => simp [List.set]; omega
      | succ j =>
          simp only [List.set, List.sum_cons, List.get]
          rw [ih j c (by simpa using h)]
          omega

theorem hist_fill_sum (bins M : Nat) (hb : 1 ≤ bins) :
    ∀ (freq : List (Nat × Nat)) (hist : List Nat) (lm : Nat),
      (∀ p ∈ freq, 1 ≤ p.1 ∧ p.1 ≤ M) → hist.length = bins →
      ∃ hist2 lm2, hist_fill bins M freq (hist, lm) = some (hist2, lm2)
        ∧ hist2.sum = hist.sum + (freq.map Prod.snd).sum
        ∧ hist2.length = bins := by
  intro freq
  induction freq with
  | nil =>
      intro hist lm _ hlen
      exact ⟨hist, lm, rfl, by simp, hlen⟩
  | cons sc rest ih =>
      obtain ⟨size, count⟩ := sc
      intro hist lm hkeys hlen
      have hsz := hkeys (size, count) (List.mem_cons_self _ _)
      have hbin : hist_bin bins size M < bins :=
        hist_bin_lt bins size M hb hsz.1 hsz.2
      have hbin2 : hist_bin bins size M < hist.length := by omega
      have hM0 : ¬ M = 0 := by
        have := hsz.1
        have := hsz.2
        omega
      obtain ⟨h2, lm2, heq, hsum, hlen2⟩ :=
        ih (hist.set (hist_bin bins size M)
              (hist.get ⟨hist_bin bins size M, hbin2⟩ + count))
           (max (hist.get ⟨hist_bin bins size M, hbin2⟩ + count) lm)
           (fun p hp => hkeys p (List.mem_cons_of_mem _ hp))
           (by simpa using hlen)
      refine ⟨h2, lm2, ?_, ?_, hlen2⟩
      · rw [hist_fill, if_pos hsz.2, if_neg hM0]
        simpa [dif_pos hbin2] using heq
      · rw [hsum, sum_set_add hist (hist_bin bins size M) count hbin2]
        simp
        omega

/-- Claim C6: for every bucket — any well-formed Stats, and both the global
bucket and every per-thread bucket are well formed — the histogram bins
sum exactly to the bucket count of size>0 events. -/
theorem claimC6 (bins : Nat) (stats : Stats) (l : List MemStatsInfo)
    (q : Nat × Stats) (hb : 1 ≤ bins) (hwf : stats.WF)
    (hq : q ∈ thread_stats l) :
    (∃ hist2 lm2,
        hist_fill bins stats.max_size stats.size_freq (List.replicate bins 0, 0)
          = some (hist2, lm2)
        ∧ hist2.sum = stats.count)
    ∧ (global_stats l).WF
    ∧ (q.2).WF := by
  refine ⟨?_, global_stats_WF l, thread_stats_WF l q hq⟩
  obtain ⟨h2, lm2, heq, hsum, _⟩ :=
    hist_fill_sum bins stats.max_size hb stats.size_freq
      (List.replicate bins 0) 0 hwf.1 (by simp)
  exact ⟨h2, lm2, heq, by simpa [hwf.2] using hsum⟩

theorem claimC6_witness :
    (∃ hist2 lm2,
        hist_fill 4 (global_stats scenarioC_events).max_size
            (global_stats scenarioC_events).size_freq (List.replicate 4 0, 0)
          = some (hist2, lm2)
        ∧ hist2.sum = (global_stats scenarioC_events).count)
    ∧ (global_stats scenarioC_events).WF
    ∧ ((0, global_stats scenarioC_events) : Nat × Stats).2.WF :=
  claimC6 4 (global_stats scenarioC_events) scenarioC_events
    (0, global_stats scenarioC_events) (by decide)
    ⟨by decide, by decide⟩ (by decide)

/-- Claim C3: an event of size s in a bucket of maximum M is placed in
histogram bin floor(bins * (s - 1) / M), always strictly below the
configured (positive) bin count; in Scenario C (bins 4, sizes 1, 5, 9, 12
allocated three times each, maximum 12) the four sizes land in bins
0, 1, 2, 3, each with count 3. -/
theorem claimC3 (bins s M c : Nat) (hb : 1 ≤ bins) (hs : 1 ≤ s)
    (hsM : s ≤ M) :
    hist_bin bins s M < bins
    ∧ hist_bin bins s M = bins * (s - 1) / M
    ∧ hist_fill bins M [(s, c)] (List.replicate bins 0, 0)
        = some ((List.replicate bins 0).set (hist_bin bins s M) c, c)
    ∧ (global_stats scenarioC_events).max_size = 12
    ∧ (global_stats scenarioC_events).size_freq
        = [(1, 3), (5, 3), (9, 3), (12, 3)]
    ∧ hist_fill 4 12 (global_stats scenarioC_events).size_freq
        (List.replicate 4 0, 0) = some ([3, 3, 3, 3], 3)
    ∧ hist_bin 4 1 12 = 0 ∧ hist_bin 4 5 12 = 1
    ∧ hist_bin 4 9 12 = 2 ∧ hist_bin 4 12 12 = 3 := by
  refine ⟨hist_bin_lt bins s M hb hs hsM, rfl, ?_, by decide, by decide,
    by decide, by decide, by decide, by decide, by decide⟩
  have hM0 : ¬ M = 0 := by omega
  have hbin : hist_bin bins s M < bins := hist_bin_lt bins s M hb hs hsM
  rw [hist_fill, if_pos hsM, if_neg hM0]
  simp [hbin, hist_fill, List.getElem_replicate, Nat.max_zero]

theorem claimC3_witness :
    hist_bin 4 5 12 < 4
    ∧ hist_bin 4 5 12 = 4 * (5 - 1) / 12
    ∧ hist_fill 4 12 [(5, 3)] (List.replicate 4 0, 0)
        = some ((List.replicate 4 0).set (hist_bin 4 5 12) 3, 3)
    ∧ (global_stats scenarioC_events).max_size = 12
    ∧ (global_stats scenarioC_events).size_freq
        = [(1, 3), (5, 3), (9, 3), (12, 3)]
    ∧ hist_fill 4 12 (global_stats scenarioC_events).size_freq
        (List.replicate 4 0, 0) = some ([3, 3, 3, 3], 3)
    ∧ hist_bin 4 1 12 = 0 ∧ hist_bin 4 5 12 = 1
    ∧ hist_bin 4 9 12 = 2 ∧ hist_bin 4 12 12 = 3 :=
  claimC3 4 5 12 3 (by decide) (by decide) (by decide)

/-- Claim C4 concerns the claim that every bucket rendered by the report
has maximum size at least 1, so no division by zero can occur.  Evaluation
at the failing input: a log holding a single deallocation event is
nonempty, so memstats_report renders the global bucket, whose maximum size
and largest bin count are both 0; the glyph division
(count * palette size) / largest bin count is then a division by zero —
undefined behaviour, modelled as ReportResult.undef. -/
theorem claimC4_evaluation :
    (memstats_report 15 9 deallocOnlySt).2 = ReportResult.undef
    ∧ glyph_of 9 0 0 = none
    ∧ (global_stats deallocOnlySt.events).max_size = 0 := by
  refine ⟨by decide, rfl, rfl⟩

end Memstats
